import Mathlib

/-!
Verification of the Hyprland IPC client of tui-bar: the event-line parser,
the subscriber fan-out bus, the command channel, the monitor query facade,
client construction, and the typed workspace-event dispatcher.

Each definition is a shallow embedding of the corresponding Go function in
the repository (the current client, i.e. the second revision in
src/unnamed/part_000, plus src/hypr_events.go). Strings are modelled by
Lean strings (lists of characters), byte slices by lists of naturals,
Go channels by explicitly identified bounded queues, and the RWMutex
discipline of the bus by an atomic-step transition system (every bus
operation runs under the mutex, so whole-operation interleaving is the
granularity the lock enforces).
-/

namespace Hypr

/-- Embeds the Go struct HyprlandEvent { Type string; Data []string }. -/
structure HyprlandEvent where
  type : String
  data : List String
deriving DecidableEq, Repr

/-- True when the character list starts with the event delimiter ">>". -/
def startsWithDelim : List Char → Bool
  | c1 :: c2 :: _ => c1 == '>' && c2 == '>'
  | _ => false

/-- True when ">>" occurs somewhere in the character list. -/
def containsDelim : List Char → Bool
  | [] => false
  | c :: rest => startsWithDelim (c :: rest) || containsDelim rest

/-- Embeds strings.SplitN(line, ">>", 2): scans for the first occurrence of
">>"; returns the text before it (accumulated in reverse in acc) and the
remainder after it, or none when the delimiter is absent. -/
def splitOnFirstDelim (acc : List Char) : List Char → Option (List Char × List Char)
  | [] => none
  | c :: rest =>
    if startsWithDelim (c :: rest) then some (acc.reverse, rest.tail)
    else splitOnFirstDelim (c :: acc) rest

/-- Embeds strings.Split(s, ","): splits around every comma; the empty
string yields the one-element list containing the empty string, exactly as
in Go. -/
def splitComma : List Char → List (List Char)
  | [] => [[]]
  | c :: rest =>
    if c = ',' then [] :: splitComma rest
    else
      match splitComma rest with
      | [] => [[c]]
      | p :: ps => (c :: p) :: ps

/-- Embeds (hc *HyprlandClient) parseEvent (src/unnamed/part_000 lines
502-515): split on the first ">>"; absent delimiter yields nil; otherwise
the text before is the event type and the remainder is split
unconditionally on commas into the field list. -/
def parseEvent (line : String) : Option HyprlandEvent :=
  match splitOnFirstDelim [] line.toList with
  | none => none
  | some tr => some { type := String.mk tr.1, data := (splitComma tr.2).map String.mk }

/-! ## Event bus

Go channels created by Subscribe (make(chan HyprlandEvent, 100)) are
modelled as bounded queues identified by allocation order: QueueData is
one channel's buffered contents plus its closed flag, and BusState.queues
maps every channel identity to its data. hc.listeners is the registry
slice of channel identities. All four bus operations run under
hc.eventMux (dispatchEvent under RLock, which still excludes every
registry writer and every close), so each operation is one atomic step of
the transition system. A Go send on a closed channel panics even inside a
select with default; trySend records that outcome in the panicked flag. -/

/-- Channel capacity fixed by Subscribe: make(chan HyprlandEvent, 100). -/
def qcap : Nat := 100

/-- One subscriber channel: its buffered events in FIFO order and whether
it has been closed. -/
structure QueueData where
  buf : List HyprlandEvent
  closed : Bool
deriving DecidableEq, Repr

/-- The bus-relevant state of a HyprlandClient: every channel ever created
(by identity), the registry slice hc.listeners, the next fresh channel
identity, and whether a send on a closed channel (a Go panic) has
occurred. -/
structure BusState where
  queues : Nat → QueueData
  listeners : List Nat
  nextId : Nat
  panicked : Bool

/-- Embeds the select/default non-blocking send of dispatchEvent: sending
on a closed channel is a panic (second component true); a full buffer
drops the event; otherwise the event is appended. -/
def trySend (e : HyprlandEvent) (q : QueueData) : QueueData × Bool :=
  if q.closed then (q, true)
  else if q.buf.length < qcap then ({ q with buf := q.buf ++ [e] }, false)
  else (q, false)

/-- One iteration of dispatchEvent's loop body on channel ch. -/
def sendStep (e : HyprlandEvent) (acc : BusState) (ch : Nat) : BusState :=
  let res := trySend e (acc.queues ch)
  { acc with
    queues := fun n => if n = ch then res.1 else acc.queues n,
    panicked := acc.panicked || res.2 }

/-- dispatchEvent's loop over a list of channels. -/
def sendAll (e : HyprlandEvent) (chans : List Nat) (s : BusState) : BusState :=
  chans.foldl (sendStep e) s

/-- Embeds (hc *HyprlandClient) dispatchEvent (lines 517-527): under
RLock, attempt a non-blocking send of the event to every registered
listener. -/
def dispatchEvent (s : BusState) (e : HyprlandEvent) : BusState :=
  sendAll e s.listeners s

/-- Embeds (hc *HyprlandClient) Subscribe (lines 529-536): under the
exclusive lock, create a fresh channel of capacity 100, append it to
hc.listeners, and return it. -/
def Subscribe (s : BusState) : BusState × Nat :=
  ({ s with
      queues := fun n => if n = s.nextId then { buf := [], closed := false } else s.queues n,
      listeners := s.listeners ++ [s.nextId],
      nextId := s.nextId + 1 }, s.nextId)

/-- Embeds (hc *HyprlandClient) Unsubscribe (lines 538-549): under the
exclusive lock, find the first registry entry equal to ch, remove it from
hc.listeners, close the channel, and stop; an absent channel leaves the
state untouched. -/
def Unsubscribe (s : BusState) (ch : Nat) : BusState :=
  if ch ∈ s.listeners then
    { s with
      listeners := s.listeners.erase ch,
      queues := fun n => if n = ch then { s.queues ch with closed := true } else s.queues n }
  else s

/-- Embeds (hc *HyprlandClient) Close (lines 551-561): under the
exclusive lock, close every registered channel and clear hc.listeners. -/
def Close (s : BusState) : BusState :=
  { s with
    queues := fun n => if n ∈ s.listeners then { s.queues n with closed := true } else s.queues n,
    listeners := [] }

/-- The bus operations whose interleavings claims quantify over. -/
inductive BusOp where
  | subscribe
  | unsubscribe (ch : Nat)
  | close
  | dispatch (e : HyprlandEvent)

/-- One atomic bus operation (each Go method holds hc.eventMux for its
whole critical section). -/
def busStep (s : BusState) : BusOp → BusState
  | BusOp.subscribe => (Subscribe s).1
  | BusOp.unsubscribe ch => Unsubscribe s ch
  | BusOp.close => Close s
  | BusOp.dispatch e => dispatchEvent s e

/-- A freshly constructed client: empty registry, no channel created, no
panic. -/
def initBus : BusState :=
  { queues := fun _ => { buf := [], closed := false },
    listeners := [],
    nextId := 0,
    panicked := false }

/-- The state reached from a fresh client by a sequence of bus
operations. -/
def reach (ops : List BusOp) : BusState :=
  ops.foldl busStep initBus

/-- The bus invariant: registry entries are distinct, were allocated by
Subscribe, and are never closed while registered; no send has ever hit a
closed channel. -/
def Inv (s : BusState) : Prop :=
  s.listeners.Nodup ∧
  (∀ ch ∈ s.listeners, ch < s.nextId) ∧
  (∀ ch ∈ s.listeners, (s.queues ch).closed = false) ∧
  s.panicked = false

/-! ## Command channel

sendCommand's socket traffic is modelled as a trace of socket operations;
bytes are naturals. The response parameter is the byte stream the
compositor makes available on the freshly dialled connection; a single
conn.Read into a 16384-byte buffer returns at most 16384 of those bytes. -/

/-- The fixed read-buffer size of sendCommand: make([]byte, 16384). -/
def bufSize : Nat := 16384

/-- One operation sendCommand performs on its transient connection. -/
inductive SockOp where
  | dial (path : String)
  | write (data : List Nat)
  | read (cap : Nat) (got : List Nat)
  | close
deriving DecidableEq, Repr

/-- True for a read operation in a socket trace. -/
def isReadOp : SockOp → Bool
  | SockOp.read _ _ => true
  | _ => false

/-- True for a write operation in a socket trace. -/
def isWriteOp : SockOp → Bool
  | SockOp.write _ => true
  | _ => false

/-- Error message of sendCommand when the dial fails. -/
def connectFailureMsg : String := "failed to connect to hyprland"

/-- Embeds (hc *HyprlandClient) sendCommand (lines 328-347), success path:
dial the per-session command socket, write the command bytes as-is, do one
read into the fixed 16384-byte buffer (returning the first min(16384,
available) bytes of the pending response), close via defer, and return the
bytes actually read. Result: the operation trace and the returned bytes. -/
def sendCommand (signature : String) (command : List Nat) (response : List Nat) :
    List SockOp × List Nat :=
  let path := "/tmp/hypr/" ++ signature ++ "/.socket.sock"
  let got := response.take bufSize
  ([SockOp.dial path, SockOp.write command, SockOp.read bufSize got, SockOp.close], got)

/-! ## Monitor query facade -/

/-- The nested activeWorkspace record of a monitor. -/
structure WorkspaceRef where
  ID : Int
  Name : String
deriving DecidableEq, Repr

/-- Embeds the Go struct HyprlandMonitor. The two float64 payload fields
(Refreshrate, Scale) are elided: no operation under verification reads
them, every other field is kept. -/
structure HyprlandMonitor where
  ID : Int
  Name : String
  Description : String
  Make : String
  Model : String
  Serial : String
  Width : Int
  Height : Int
  X : Int
  Y : Int
  ActiveWorkspace : WorkspaceRef
  Reserved : Int × Int × Int × Int
  Transform : Int
  Focused : Bool
  DpmsStatus : Bool
  Vrr : Bool
deriving DecidableEq, Repr

/-- Error message of GetActiveMonitor when no monitor is focused. -/
def noFocusedMonitorMsg : String := "no focused monitor found"

/-- The loop of GetActiveMonitor: the first monitor with Focused set. -/
def findFocused : List HyprlandMonitor → Option HyprlandMonitor
  | [] => none
  | m :: rest => if m.Focused then some m else findFocused rest

/-- Embeds (hc *HyprlandClient) GetActiveMonitor (lines 414-425),
parameterised by the outcome of the GetMonitors call it makes: a
GetMonitors failure is propagated unchanged; otherwise the first focused
monitor of the list is returned, and the distinct "no focused monitor
found" error when there is none. -/
def GetActiveMonitor (fetched : Except String (List HyprlandMonitor)) :
    Except String HyprlandMonitor :=
  match fetched with
  | Except.error e => Except.error e
  | Except.ok monitors =>
    match findFocused monitors with
    | some m => Except.ok m
    | none => Except.error noFocusedMonitorMsg

/-! ## Client construction -/

/-- The environment variable NewHyprlandClient reads. -/
def signatureEnvVar : String := "HYPRLAND_INSTANCE_SIGNATURE"

/-- Error message of NewHyprlandClient when the signature is missing. -/
def notRunningMsg : String := "not running in hyprland"

/-- The construction-relevant state of a HyprlandClient: its session
signature and its listener registry (channel identities). The two nil
connection fields and the zero-valued mutex of the Go struct carry no
data at construction. -/
structure HyprlandClient where
  signature : String
  listeners : List Nat
deriving DecidableEq, Repr

/-- Embeds NewHyprlandClient (lines 315-326), parameterised by the
environment (os.Getenv returns the empty string for an unset variable):
an empty signature fails with "not running in hyprland"; otherwise the
client carries the signature and an empty listener registry. -/
def NewHyprlandClient (getenv : String → String) : Except String HyprlandClient :=
  let signature := getenv signatureEnvVar
  if signature = "" then Except.error notRunningMsg
  else Except.ok { signature := signature, listeners := [] }

/-! ## Typed dispatcher (src/hypr_events.go) -/

/-- Numeric value of a decimal digit character, none otherwise. -/
def digitVal (c : Char) : Option Nat :=
  if '0' ≤ c ∧ c ≤ '9' then some (c.toNat - '0'.toNat) else none

/-- Decimal value of a non-empty all-digit character list. -/
def parseDigitsAcc (acc : Nat) : List Char → Option Nat
  | [] => some acc
  | c :: rest =>
    match digitVal c with
    | some d => parseDigitsAcc (acc * 10 + d) rest
    | none => none

/-- Decimal digits parser: none on the empty list or any non-digit. -/
def goParseDigits : List Char → Option Nat
  | [] => none
  | cs => parseDigitsAcc 0 cs

/-- Largest Go int (64-bit) value. -/
def int64Max : Int := 2 ^ 63 - 1

/-- Smallest Go int (64-bit) value. -/
def int64Min : Int := -(2 ^ 63)

/-- Embeds strconv.Atoi as used by OnWorkspaceChange: an optional sign
followed by at least one decimal digit, erroring on the empty string, any
non-digit, and 64-bit overflow; none models err != nil. -/
def goAtoi (s : String) : Option Int :=
  match s.toList with
  | [] => none
  | c :: rest =>
    let signedDigits : Bool × List Char :=
      if c = '-' then (true, rest)
      else if c = '+' then (false, rest)
      else (false, c :: rest)
    match goParseDigits signedDigits.2 with
    | none => none
    | some n =>
      let v : Int := if signedDigits.1 then -(n : Int) else (n : Int)
      if v < int64Min ∨ int64Max < v then none else some v

/-- Embeds the closure OnWorkspaceChange (src/hypr_events.go lines 75-85)
registers: given the event it is invoked with, the (workspaceID,
workspaceName) arguments it passes to the user callback, or none when the
callback is not invoked (empty field list). A numeric first field is the
id; otherwise the id is 0 and the raw field is the name. -/
def workspaceHandlerArgs (event : HyprlandEvent) : Option (Int × String) :=
  match event.data with
  | [] => none
  | d0 :: _ =>
    match goAtoi d0 with
    | some id => some (id, d0)
    | none => some (0, d0)

/-- Embeds processEvent (src/hypr_events.go lines 58-66) specialised to a
callback registered under "workspace" via OnWorkspaceChange: processEvent
looks the event's type up in the callback map, so the registered closure
runs exactly on events of type "workspace". Result: the arguments the
user callback is invoked with, or none when it is not invoked. -/
def onWorkspaceChangeArgs (event : HyprlandEvent) : Option (Int × String) :=
  if event.type = "workspace" then workspaceHandlerArgs event else none

/-- A sample focused monitor used to instantiate the monitor query facade. -/
def monFocused : HyprlandMonitor :=
  { ID := 0, Name := "eDP-1", Description := "built-in", Make := "BOE", Model := "0x095F",
    Serial := "0", Width := 2256, Height := 1504, X := 0, Y := 0,
    ActiveWorkspace := { ID := 3, Name := "3" }, Reserved := (0, 0, 0, 0),
    Transform := 0, Focused := true, DpmsStatus := true, Vrr := false }

/-- A sample unfocused monitor used to instantiate the monitor query facade. -/
def monOther : HyprlandMonitor :=
  { monFocused with ID := 1, Name := "DP-1", Focused := false }

/-! ## Lemmas about the line parser -/

theorem splitComma_ne_nil (l : List Char) : splitComma l ≠ [] := by
  cases l with
  | nil => simp [splitComma]
  | cons c rest =>
    simp only [splitComma]
    by_cases h : c = ','
    · simp [h]
    · rw [if_neg h]
      cases splitComma rest <;> simp

theorem containsDelim_cons (a : Char) (l : List Char) :
    containsDelim (a :: l) = (startsWithDelim (a :: l) || containsDelim l) := rfl

theorem startsWithDelim_cons₂ (a b : Char) (l : List Char) :
    startsWithDelim (a :: b :: l) = (a == '>' && b == '>') := rfl

theorem startsWithDelim_one (a : Char) : startsWithDelim [a] = false := rfl

theorem splitOnFirstDelim_cons (acc : List Char) (c : Char) (rest : List Char) :
    splitOnFirstDelim acc (c :: rest) =
      if startsWithDelim (c :: rest) = true then some (acc.reverse, rest.tail)
      else splitOnFirstDelim (c :: acc) rest := rfl

theorem containsDelim_iff (l : List Char) :
    containsDelim l = true ↔ ∃ pre post, l = pre ++ '>' :: '>' :: post := by
  induction l with
  | nil =>
    constructor
    · intro h; simp [containsDelim] at h
    · rintro ⟨pre, post, h⟩
      cases pre <;> simp at h
  | cons c rest ih =>
    rw [containsDelim_cons]
    cases rest with
    | nil =>
      constructor
      · intro h
        rw [startsWithDelim_one] at h
        simp [containsDelim] at h
      · rintro ⟨pre, post, h⟩
        cases pre <;> simp at h
    | cons c2 rest2 =>
      rw [startsWithDelim_cons₂]
      constructor
      · intro h
        simp only [Bool.or_eq_true, Bool.and_eq_true, beq_iff_eq] at h
        rcases h with ⟨h1, h2⟩ | h
        · exact ⟨[], rest2, by simp [h1, h2]⟩
        · rcases ih.mp h with ⟨pre, post, hp⟩
          exact ⟨c :: pre, post, by simp [hp]⟩
      · rintro ⟨pre, post, h⟩
        simp only [Bool.or_eq_true, Bool.and_eq_true, beq_iff_eq]
        cases pre with
        | nil =>
          simp at h
          exact Or.inl ⟨h.1, h.2.1⟩
        | cons p ps =>
          simp at h
          exact Or.inr (ih.mpr ⟨ps, post, h.2⟩)

theorem splitOnFirstDelim_eq_none (l : List Char) :
    ∀ acc, splitOnFirstDelim acc l = none ↔ containsDelim l = false := by
  induction l with
  | nil => intro acc; simp [splitOnFirstDelim, containsDelim]
  | cons c rest ih =>
    intro acc
    rw [splitOnFirstDelim_cons, containsDelim_cons]
    cases h : startsWithDelim (c :: rest) with
    | true => simp
    | false => simp [ih]

theorem splitOnFirstDelim_append (t : List Char) :
    ∀ acc r, containsDelim (t ++ ['>']) = false →
      splitOnFirstDelim acc (t ++ '>' :: '>' :: r) = some (acc.reverse ++ t, r) := by
  induction t with
  | nil =>
    intro acc r _
    rw [List.nil_append, splitOnFirstDelim_cons, startsWithDelim_cons₂]
    simp
  | cons c t' ih =>
    intro acc r hno
    rw [List.cons_append, containsDelim_cons] at hno
    have htail : containsDelim (t' ++ ['>']) = false :=
      (Bool.or_eq_false_iff.mp hno).2
    have hswF : startsWithDelim (c :: (t' ++ ['>'])) = false :=
      (Bool.or_eq_false_iff.mp hno).1
    have hsw : startsWithDelim (c :: (t' ++ '>' :: '>' :: r)) = false := by
      cases t' with
      | nil =>
        rw [List.nil_append] at hswF ⊢
        rw [startsWithDelim_cons₂] at hswF ⊢
        exact hswF
      | cons d t'' =>
        rw [List.cons_append] at hswF ⊢
        rw [startsWithDelim_cons₂] at hswF ⊢
        exact hswF
    rw [List.cons_append, splitOnFirstDelim_cons, hsw]
    simp only [Bool.false_eq_true, if_false]
    rw [ih (c :: acc) r htail]
    simp

/-! ## Claim theorems about the line parser -/

/-- C3: parseEvent splits every line on the first occurrence of ">>": with
the delimiter absent the line yields no event; with it present, the event
type is the text before the first ">>" and the fields are the remainder
split unconditionally on commas; in particular "TYPE>>a,b,c" yields the
event with type "TYPE" and fields ["a", "b", "c"]. -/
theorem parseEvent_spec (line : String) (t r : List Char) :
    (parseEvent line = none ↔ containsDelim line.toList = false)
    ∧ (containsDelim line.toList = true ↔
        ∃ pre post, line.toList = pre ++ '>' :: '>' :: post)
    ∧ (containsDelim (t ++ ['>']) = false →
        parseEvent (String.mk (t ++ '>' :: '>' :: r))
          = some { type := String.mk t, data := (splitComma r).map String.mk })
    ∧ parseEvent "TYPE>>a,b,c" = some { type := "TYPE", data := ["a", "b", "c"] } := by
  refine ⟨?_, containsDelim_iff _, ?_, by decide⟩
  · rw [← splitOnFirstDelim_eq_none line.toList []]
    unfold parseEvent
    cases splitOnFirstDelim [] line.toList <;> simp
  · intro hno
    have hs := splitOnFirstDelim_append t [] r hno
    simp only [List.reverse_nil, List.nil_append] at hs
    unfold parseEvent
    rw [show (String.mk (t ++ '>' :: '>' :: r)).toList = t ++ '>' :: '>' :: r from rfl, hs]

/-- Witness for C3 at a concrete type and field remainder. -/
theorem parseEvent_spec_witness :
    parseEvent (String.mk ("TYPE".toList ++ '>' :: '>' :: "a,b,c".toList))
      = some { type := String.mk "TYPE".toList,
               data := (splitComma "a,b,c".toList).map String.mk } :=
  (parseEvent_spec "x" "TYPE".toList "a,b,c".toList).2.2.1 (by decide)

/-- C9: a line of the form type-then-delimiter with an empty remainder
parses to an event whose field sequence is exactly one empty string, never
the empty sequence; in fact no parsed event ever has an empty field
sequence. -/
theorem parseEvent_empty_remainder_spec (t : List Char) (line : String) (ev : HyprlandEvent) :
    (containsDelim (t ++ ['>']) = false →
      parseEvent (String.mk (t ++ ['>', '>'])) = some { type := String.mk t, data := [""] })
    ∧ (parseEvent line = some ev → ev.data ≠ [])
    ∧ parseEvent "TYPE>>" = some { type := "TYPE", data := [""] }
    ∧ parseEvent "TYPE>>" ≠ some { type := "TYPE", data := ([] : List String) } := by
  refine ⟨?_, ?_, by decide, by decide⟩
  · intro hno
    have hs := splitOnFirstDelim_append t [] [] hno
    simp only [List.reverse_nil, List.nil_append] at hs
    unfold parseEvent
    rw [show (String.mk (t ++ ['>', '>'])).toList = t ++ '>' :: '>' :: [] from rfl, hs]
    rfl
  · intro h
    unfold parseEvent at h
    cases hsp : splitOnFirstDelim [] line.toList with
    | none => rw [hsp] at h; exact absurd h (by simp)
    | some tr =>
      rw [hsp] at h
      have hdata : ev.data = (splitComma tr.2).map String.mk := by
        have := Option.some.inj h
        rw [← this]
      rw [hdata]
      simp only [ne_eq, List.map_eq_nil_iff]
      exact splitComma_ne_nil tr.2

/-- Witness for C9 at a concrete type prefix and a concrete parsed line. -/
theorem parseEvent_empty_remainder_spec_witness :
    parseEvent (String.mk ("sub".toList ++ ['>', '>']))
      = some { type := String.mk "sub".toList, data := [""] }
    ∧ ({ type := "a", data := ["b"] } : HyprlandEvent).data ≠ [] :=
  ⟨(parseEvent_empty_remainder_spec "sub".toList "x" { type := "x", data := ["x"] }).1
      (by decide),
   (parseEvent_empty_remainder_spec "sub".toList "a>>b" { type := "a", data := ["b"] }).2.1
      (by decide)⟩

/-! ## Lemmas about the event bus -/

theorem sendAll_spec (e : HyprlandEvent) (chans : List Nat) :
    ∀ s : BusState, chans.Nodup → (∀ ch ∈ chans, (s.queues ch).closed = false) →
      (sendAll e chans s).listeners = s.listeners ∧
      (sendAll e chans s).nextId = s.nextId ∧
      (sendAll e chans s).panicked = s.panicked ∧
      ∀ ch, (sendAll e chans s).queues ch =
        if ch ∈ chans then
          (if (s.queues ch).buf.length < qcap
           then { s.queues ch with buf := (s.queues ch).buf ++ [e] }
           else s.queues ch)
        else s.queues ch := by
  induction chans with
  | nil =>
    intro s _ _
    exact ⟨rfl, rfl, rfl, fun ch => by simp [sendAll]⟩
  | cons ch0 rest ih =>
    intro s hnd hopen
    have hnd0 : ch0 ∉ rest := (List.nodup_cons.mp hnd).1
    have hndr : rest.Nodup := (List.nodup_cons.mp hnd).2
    have hch0 : (s.queues ch0).closed = false := hopen ch0 (by simp)
    have hts : trySend e (s.queues ch0) =
        ((if (s.queues ch0).buf.length < qcap
          then { s.queues ch0 with buf := (s.queues ch0).buf ++ [e] }
          else s.queues ch0), false) := by
      unfold trySend
      rw [hch0]
      simp only [Bool.false_eq_true, if_false]
      by_cases hlen : (s.queues ch0).buf.length < qcap
      · rw [if_pos hlen, if_pos hlen]
        simp [hch0]
      · rw [if_neg hlen, if_neg hlen]
    have hts1 : (trySend e (s.queues ch0)).1 =
        (if (s.queues ch0).buf.length < qcap
         then { s.queues ch0 with buf := (s.queues ch0).buf ++ [e] }
         else s.queues ch0) := by
      rw [hts]
    have hts2 : (trySend e (s.queues ch0)).2 = false := by
      rw [hts]
    have hstep : sendAll e (ch0 :: rest) s = sendAll e rest (sendStep e s ch0) := rfl
    have hopen1 : ∀ ch ∈ rest, ((sendStep e s ch0).queues ch).closed = false := by
      intro ch hm
      have hne : ch ≠ ch0 := fun hq => hnd0 (hq ▸ hm)
      show ((if ch = ch0 then (trySend e (s.queues ch0)).1 else s.queues ch)).closed = false
      rw [if_neg hne]
      exact hopen ch (by simp [hm])
    obtain ⟨hl, hn, hp, hq⟩ := ih (sendStep e s ch0) hndr hopen1
    have hl0 : (sendStep e s ch0).listeners = s.listeners := rfl
    have hn0 : (sendStep e s ch0).nextId = s.nextId := rfl
    have hp0 : (sendStep e s ch0).panicked = s.panicked := by
      show (s.panicked || (trySend e (s.queues ch0)).2) = s.panicked
      rw [hts2, Bool.or_false]
    refine ⟨by rw [hstep, hl, hl0], by rw [hstep, hn, hn0], by rw [hstep, hp, hp0], ?_⟩
    intro ch
    rw [hstep, hq ch]
    by_cases hr : ch ∈ rest
    · have hne : ch ≠ ch0 := fun hq2 => hnd0 (hq2 ▸ hr)
      have hsq : (sendStep e s ch0).queues ch = s.queues ch := by
        show (if ch = ch0 then (trySend e (s.queues ch0)).1 else s.queues ch) = s.queues ch
        rw [if_neg hne]
      have hmemc : ch ∈ ch0 :: rest := List.mem_cons_of_mem ch0 hr
      rw [hsq, if_pos hr, if_pos hmemc]
    · by_cases hc : ch = ch0
      · subst hc
        have hsq : (sendStep e s ch).queues ch = (trySend e (s.queues ch)).1 := by
          show (if ch = ch then (trySend e (s.queues ch)).1 else s.queues ch) = _
          rw [if_pos rfl]
        have hmemc : ch ∈ ch :: rest := List.mem_cons_self ch rest
        rw [if_neg hr, hsq, hts1, if_pos hmemc]
      · have hsq : (sendStep e s ch0).queues ch = s.queues ch := by
          show (if ch = ch0 then (trySend e (s.queues ch0)).1 else s.queues ch) = s.queues ch
          rw [if_neg hc]
        have hnmc : ch ∉ ch0 :: rest := by
          intro hin
          rcases List.mem_cons.mp hin with h1 | h2
          · exact hc h1
          · exact hr h2
        rw [if_neg hr, hsq, if_neg hnmc]

theorem inv_busStep (s : BusState) (op : BusOp) (h : Inv s) : Inv (busStep s op) := by
  obtain ⟨hnd, hlt, hop, hpa⟩ := h
  cases op with
  | subscribe =>
    refine ⟨?_, ?_, ?_, hpa⟩
    · show (s.listeners ++ [s.nextId]).Nodup
      rw [List.nodup_append]
      refine ⟨hnd, List.nodup_singleton _, ?_⟩
      intro a ha hb
      have := hlt a ha
      simp at hb
      omega
    · intro ch hch
      have hch' : ch ∈ s.listeners ++ [s.nextId] := hch
      show ch < s.nextId + 1
      rcases List.mem_append.mp hch' with hc | hc
      · have := hlt ch hc
        omega
      · simp at hc
        omega
    · intro ch hch
      have hch' : ch ∈ s.listeners ++ [s.nextId] := hch
      show ((if ch = s.nextId then { buf := [], closed := false } else s.queues ch) :
          QueueData).closed = false
      by_cases hc : ch = s.nextId
      · rw [if_pos hc]
      · rw [if_neg hc]
        rcases List.mem_append.mp hch' with hm | hm
        · exact hop ch hm
        · simp at hm
          exact absurd hm hc
  | unsubscribe ch =>
    show Inv (Unsubscribe s ch)
    unfold Unsubscribe
    by_cases hm : ch ∈ s.listeners
    · rw [if_pos hm]
      refine ⟨hnd.erase ch, ?_, ?_, hpa⟩
      · intro c hc
        exact hlt c (List.mem_of_mem_erase hc)
      · intro c hc
        have hcne : c ≠ ch := ((List.Nodup.mem_erase_iff hnd).mp hc).1
        show ((if c = ch then { s.queues ch with closed := true } else s.queues c) :
            QueueData).closed = false
        rw [if_neg hcne]
        exact hop c (List.mem_of_mem_erase hc)
    · rw [if_neg hm]
      exact ⟨hnd, hlt, hop, hpa⟩
  | close =>
    exact ⟨List.nodup_nil, fun ch hch => absurd hch (List.not_mem_nil ch),
      fun ch hch => absurd hch (List.not_mem_nil ch), hpa⟩
  | dispatch e =>
    obtain ⟨hl, hn, hp, hq⟩ := sendAll_spec e s.listeners s hnd hop
    refine ⟨?_, ?_, ?_, ?_⟩
    · show (sendAll e s.listeners s).listeners.Nodup
      rw [hl]
      exact hnd
    · intro ch hch
      have hch' : ch ∈ (sendAll e s.listeners s).listeners := hch
      rw [hl] at hch'
      show ch < (sendAll e s.listeners s).nextId
      rw [hn]
      exact hlt ch hch'
    · intro ch hch
      have hch' : ch ∈ (sendAll e s.listeners s).listeners := hch
      rw [hl] at hch'
      show ((sendAll e s.listeners s).queues ch).closed = false
      rw [hq ch, if_pos hch']
      by_cases hlen : (s.queues ch).buf.length < qcap
      · rw [if_pos hlen]
        exact hop ch hch'
      · rw [if_neg hlen]
        exact hop ch hch'
    · show (sendAll e s.listeners s).panicked = false
      rw [hp]
      exact hpa

theorem inv_foldl (ops : List BusOp) : ∀ s, Inv s → Inv (ops.foldl busStep s) := by
  induction ops with
  | nil => intro s h; exact h
  | cons op rest ih =>
    intro s h
    exact ih (busStep s op) (inv_busStep s op h)

theorem inv_initBus : Inv initBus :=
  ⟨List.nodup_nil, fun ch hch => absurd hch (List.not_mem_nil ch),
   fun ch hch => absurd hch (List.not_mem_nil ch), rfl⟩

theorem inv_reach (ops : List BusOp) : Inv (reach ops) :=
  inv_foldl ops initBus inv_initBus

theorem dispatches_buf (es : List HyprlandEvent) :
    ∀ (s : BusState) (ch : Nat), Inv s → ch ∈ s.listeners →
      (((es.map BusOp.dispatch).foldl busStep s).queues ch).buf
        = (s.queues ch).buf ++ es.take (qcap - (s.queues ch).buf.length) := by
  induction es with
  | nil => intro s ch _ _; simp
  | cons e rest ih =>
    intro s ch hinv hmem
    obtain ⟨hnd, hlt, hop, hpa⟩ := hinv
    obtain ⟨hl, hn, hp, hq⟩ := sendAll_spec e s.listeners s hnd hop
    have hinv2 : Inv (busStep s (BusOp.dispatch e)) :=
      inv_busStep s (BusOp.dispatch e) ⟨hnd, hlt, hop, hpa⟩
    have hmem2 : ch ∈ (busStep s (BusOp.dispatch e)).listeners := by
      show ch ∈ (sendAll e s.listeners s).listeners
      rw [hl]
      exact hmem
    simp only [List.map_cons, List.foldl_cons]
    rw [ih (busStep s (BusOp.dispatch e)) ch hinv2 hmem2]
    have hq2 : (busStep s (BusOp.dispatch e)).queues ch =
        (if (s.queues ch).buf.length < qcap
         then { s.queues ch with buf := (s.queues ch).buf ++ [e] }
         else s.queues ch) := by
      show (sendAll e s.listeners s).queues ch = _
      rw [hq ch, if_pos hmem]
    rw [hq2]
    by_cases hlen : (s.queues ch).buf.length < qcap
    · rw [if_pos hlen]
      have harith : qcap - (s.queues ch).buf.length
          = (qcap - ((s.queues ch).buf.length + 1)) + 1 := by omega
      simp only [List.length_append, List.length_cons, List.length_nil]
      rw [show (s.queues ch).buf.length + (0 + 1) = (s.queues ch).buf.length + 1 by omega,
        harith, List.take_succ_cons, List.append_assoc]
      rfl
    · rw [if_neg hlen]
      have h0 : qcap - (s.queues ch).buf.length = 0 := by omega
      rw [h0]
      simp

theorem dispatches_nonmember (es : List HyprlandEvent) :
    ∀ (s : BusState) (ch : Nat), Inv s → ch ∉ s.listeners →
      ((es.map BusOp.dispatch).foldl busStep s).queues ch = s.queues ch := by
  induction es with
  | nil => intro s ch _ _; rfl
  | cons e rest ih =>
    intro s ch hinv hnm
    obtain ⟨hnd, hlt, hop, hpa⟩ := hinv
    obtain ⟨hl, hn, hp, hq⟩ := sendAll_spec e s.listeners s hnd hop
    have hinv2 : Inv (busStep s (BusOp.dispatch e)) :=
      inv_busStep s (BusOp.dispatch e) ⟨hnd, hlt, hop, hpa⟩
    have hnm2 : ch ∉ (busStep s (BusOp.dispatch e)).listeners := by
      show ch ∉ (sendAll e s.listeners s).listeners
      rw [hl]
      exact hnm
    simp only [List.map_cons, List.foldl_cons]
    rw [ih (busStep s (BusOp.dispatch e)) ch hinv2 hnm2]
    show (sendAll e s.listeners s).queues ch = s.queues ch
    rw [hq ch, if_neg hnm]

theorem unsubscribe_not_mem (s : BusState) (ch : Nat) (h : ch ∉ s.listeners) :
    Unsubscribe s ch = s := by
  unfold Unsubscribe
  rw [if_neg h]

/-! ## Claim theorems about the event bus -/

/-- C1: in every state reachable by any interleaving of Subscribe,
Unsubscribe, Close and dispatchEvent steps, no event has ever been sent to
an already-closed queue (the panic flag, set exactly when a send hits a
closed channel, is still false) and the registry a dispatch would iterate
over contains no closed queue: removal under the exclusive lock
unregisters a subscriber before (atomically with) closing its queue. -/
theorem bus_no_enqueue_after_close (ops : List BusOp) :
    (reach ops).panicked = false ∧
    ∀ ch ∈ (reach ops).listeners, ((reach ops).queues ch).closed = false :=
  ⟨(inv_reach ops).2.2.2, (inv_reach ops).2.2.1⟩

/-- Witness for C1 on a concrete operation sequence and subscriber. -/
theorem bus_no_enqueue_after_close_witness :
    (reach [BusOp.subscribe, BusOp.dispatch { type := "workspace", data := ["3"] },
        BusOp.unsubscribe 0]).panicked = false
    ∧ ((reach [BusOp.subscribe, BusOp.subscribe]).queues 1).closed = false :=
  ⟨(bus_no_enqueue_after_close
      [BusOp.subscribe, BusOp.dispatch { type := "workspace", data := ["3"] },
        BusOp.unsubscribe 0]).1,
   (bus_no_enqueue_after_close [BusOp.subscribe, BusOp.subscribe]).2 1 (by decide)⟩

/-- C2: after a Subscribe, dispatching a sequence of events sequentially
delivers exactly the first 100 of them (queue capacity) to the fresh
queue, in dispatch order; and each single dispatch appends the event to
every registered subscriber with free capacity while silently skipping a
full one, each subscriber's outcome depending only on its own queue. -/
theorem dispatch_delivery_spec (ops : List BusOp) (es : List HyprlandEvent)
    (e : HyprlandEvent) (ch : Nat) :
    ((reach (ops ++ BusOp.subscribe :: es.map BusOp.dispatch)).queues
        (reach ops).nextId).buf = es.take 100
    ∧ (ch ∈ (reach ops).listeners →
        ((dispatchEvent (reach ops) e).queues ch).buf =
          if ((reach ops).queues ch).buf.length < 100
          then ((reach ops).queues ch).buf ++ [e]
          else ((reach ops).queues ch).buf) := by
  obtain ⟨hnd, hlt, hop, hpa⟩ := inv_reach ops
  constructor
  · have hsplit : reach (ops ++ BusOp.subscribe :: es.map BusOp.dispatch)
        = (es.map BusOp.dispatch).foldl busStep (busStep (reach ops) BusOp.subscribe) := by
      unfold reach
      rw [List.foldl_append, List.foldl_cons]
    rw [hsplit]
    have hinv1 : Inv (busStep (reach ops) BusOp.subscribe) :=
      inv_busStep _ _ ⟨hnd, hlt, hop, hpa⟩
    have hmem1 : (reach ops).nextId ∈ (busStep (reach ops) BusOp.subscribe).listeners := by
      show (reach ops).nextId ∈ (reach ops).listeners ++ [(reach ops).nextId]
      simp
    rw [dispatches_buf es _ _ hinv1 hmem1]
    have hfresh : (busStep (reach ops) BusOp.subscribe).queues (reach ops).nextId
        = { buf := [], closed := false } := by
      show (if (reach ops).nextId = (reach ops).nextId
            then ({ buf := [], closed := false } : QueueData)
            else (reach ops).queues (reach ops).nextId) = _
      rw [if_pos rfl]
    rw [hfresh]
    simp [qcap]
  · intro hm
    obtain ⟨hl, hn, hp, hq⟩ := sendAll_spec e (reach ops).listeners (reach ops) hnd hop
    show ((sendAll e (reach ops).listeners (reach ops)).queues ch).buf = _
    rw [hq ch, if_pos hm]
    by_cases hlen : ((reach ops).queues ch).buf.length < 100
    · rw [if_pos (show ((reach ops).queues ch).buf.length < qcap from hlen), if_pos hlen]
    · rw [if_neg (show ¬ ((reach ops).queues ch).buf.length < qcap from hlen), if_neg hlen]

/-- Witness for C2 on a concrete two-event dispatch sequence. -/
theorem dispatch_delivery_spec_witness :
    ((reach ([] ++ BusOp.subscribe ::
        [({ type := "workspace", data := ["1"] } : HyprlandEvent),
         ({ type := "workspace", data := ["2"] } : HyprlandEvent)].map BusOp.dispatch)).queues
          (reach []).nextId).buf
      = ([({ type := "workspace", data := ["1"] } : HyprlandEvent),
          ({ type := "workspace", data := ["2"] } : HyprlandEvent)]).take 100
    ∧ ((dispatchEvent (reach [BusOp.subscribe]) { type := "e", data := [] }).queues 0).buf =
        if ((reach [BusOp.subscribe]).queues 0).buf.length < 100
        then ((reach [BusOp.subscribe]).queues 0).buf
          ++ [({ type := "e", data := [] } : HyprlandEvent)]
        else ((reach [BusOp.subscribe]).queues 0).buf :=
  ⟨(dispatch_delivery_spec []
      [{ type := "workspace", data := ["1"] }, { type := "workspace", data := ["2"] }]
      { type := "e", data := [] } 0).1,
   (dispatch_delivery_spec [BusOp.subscribe] [] { type := "e", data := [] } 0).2 (by decide)⟩

/-- C4: Unsubscribe removes a registered handle from the registry and
closes its queue (end-of-stream for the consumer) without discarding
already-buffered events; dispatches performed after the unsubscribe leave
that handle's queue entirely untouched; and Unsubscribe of an unknown or
already-removed handle is a state-preserving no-op, making Unsubscribe
idempotent. -/
theorem unsubscribe_spec (ops : List BusOp) (ch : Nat) (es : List HyprlandEvent) :
    (ch ∈ (reach ops).listeners →
      (Unsubscribe (reach ops) ch).listeners = (reach ops).listeners.erase ch ∧
      ((Unsubscribe (reach ops) ch).queues ch).closed = true ∧
      ((Unsubscribe (reach ops) ch).queues ch).buf = ((reach ops).queues ch).buf)
    ∧ (reach (ops ++ BusOp.unsubscribe ch :: es.map BusOp.dispatch)).queues ch
        = (Unsubscribe (reach ops) ch).queues ch
    ∧ (ch ∉ (reach ops).listeners → Unsubscribe (reach ops) ch = reach ops)
    ∧ Unsubscribe (Unsubscribe (reach ops) ch) ch = Unsubscribe (reach ops) ch := by
  obtain ⟨hnd, hlt, hop, hpa⟩ := inv_reach ops
  have hnotin : ch ∉ (Unsubscribe (reach ops) ch).listeners := by
    unfold Unsubscribe
    by_cases hm : ch ∈ (reach ops).listeners
    · rw [if_pos hm]
      intro hin
      exact ((List.Nodup.mem_erase_iff hnd).mp hin).1 rfl
    · rw [if_neg hm]
      exact hm
  have hinvU : Inv (Unsubscribe (reach ops) ch) :=
    inv_busStep (reach ops) (BusOp.unsubscribe ch) ⟨hnd, hlt, hop, hpa⟩
  refine ⟨?_, ?_, fun hm => unsubscribe_not_mem _ _ hm, unsubscribe_not_mem _ _ hnotin⟩
  · intro hm
    unfold Unsubscribe
    rw [if_pos hm]
    refine ⟨rfl, ?_, ?_⟩
    · show ((if ch = ch then { (reach ops).queues ch with closed := true }
          else (reach ops).queues ch) : QueueData).closed = true
      rw [if_pos rfl]
    · show ((if ch = ch then { (reach ops).queues ch with closed := true }
          else (reach ops).queues ch) : QueueData).buf = _
      rw [if_pos rfl]
  · have hsplit : reach (ops ++ BusOp.unsubscribe ch :: es.map BusOp.dispatch)
        = (es.map BusOp.dispatch).foldl busStep (Unsubscribe (reach ops) ch) := by
      unfold reach
      rw [List.foldl_append, List.foldl_cons]
      rfl
    rw [hsplit]
    exact dispatches_nonmember es (Unsubscribe (reach ops) ch) ch hinvU hnotin

/-- Witness for C4 on a concrete subscribe/unsubscribe/dispatch history. -/
theorem unsubscribe_spec_witness :
    ((Unsubscribe (reach [BusOp.subscribe]) 0).queues 0).closed = true
    ∧ (reach ([BusOp.subscribe] ++ BusOp.unsubscribe 0 ::
        [({ type := "workspace", data := ["3"] } : HyprlandEvent)].map BusOp.dispatch)).queues 0
        = (Unsubscribe (reach [BusOp.subscribe]) 0).queues 0
    ∧ Unsubscribe (reach [BusOp.subscribe, BusOp.unsubscribe 0]) 0
        = reach [BusOp.subscribe, BusOp.unsubscribe 0] :=
  ⟨((unsubscribe_spec [BusOp.subscribe] 0 []).1 (by decide)).2.1,
   (unsubscribe_spec [BusOp.subscribe] 0 [{ type := "workspace", data := ["3"] }]).2.1,
   (unsubscribe_spec [BusOp.subscribe, BusOp.unsubscribe 0] 0 []).2.2.1 (by decide)⟩

/-! ## Claim theorems about the command channel -/

/-- C5: every sendCommand call dials one fresh per-session connection,
writes the command bytes as-is, performs exactly one read into the fixed
16384-byte buffer, closes the connection, and returns the bytes actually
read; the returned response is therefore at most 16384 bytes and a longer
pending response is silently truncated rather than read to
end-of-stream. -/
theorem sendCommand_spec (sig : String) (command response : List Nat) :
    (sendCommand sig command response).2 = response.take 16384
    ∧ (sendCommand sig command response).2.length ≤ 16384
    ∧ (sendCommand sig command response).1 =
        [SockOp.dial ("/tmp/hypr/" ++ sig ++ "/.socket.sock"),
         SockOp.write command,
         SockOp.read 16384 (response.take 16384),
         SockOp.close]
    ∧ ((sendCommand sig command response).1.countP isReadOp) = 1
    ∧ ((sendCommand sig command response).1.countP isWriteOp) = 1
    ∧ (16384 < response.length → (sendCommand sig command response).2 ≠ response) := by
  refine ⟨rfl, List.length_take_le 16384 response, rfl, rfl, rfl, ?_⟩
  intro h heq
  have heq2 : response.take 16384 = response := heq
  have hlen := congrArg List.length heq2
  rw [List.length_take] at hlen
  rw [min_eq_left (le_of_lt h)] at hlen
  omega

/-- Witness for C5: a 16385-byte pending response is truncated. -/
theorem sendCommand_spec_witness :
    (sendCommand "abc123" [104, 105] (List.replicate 16385 0)).2
      ≠ List.replicate 16385 0 :=
  (sendCommand_spec "abc123" [104, 105] (List.replicate 16385 0)).2.2.2.2.2
    (by rw [List.length_replicate]; omega)

/-! ## Claim theorems about the monitor query facade -/

theorem findFocused_of_filter (ms : List HyprlandMonitor) (m : HyprlandMonitor) :
    ms.filter (fun mm => mm.Focused) = [m] → findFocused ms = some m := by
  induction ms with
  | nil => intro h; simp at h
  | cons m0 rest ih =>
    intro h
    by_cases hf : m0.Focused
    · rw [List.filter_cons_of_pos (by simpa using hf)] at h
      have h1 : m0 = m := (List.cons.inj h).1
      show (if m0.Focused = true then some m0 else findFocused rest) = some m
      rw [if_pos hf, h1]
    · rw [List.filter_cons_of_neg (by simpa using hf)] at h
      show (if m0.Focused = true then some m0 else findFocused rest) = some m
      rw [if_neg hf]
      exact ih h

theorem findFocused_none (ms : List HyprlandMonitor) :
    (∀ mm ∈ ms, mm.Focused = false) → findFocused ms = none := by
  induction ms with
  | nil => intro _; rfl
  | cons m0 rest ih =>
    intro h
    show (if m0.Focused = true then some m0 else findFocused rest) = none
    rw [h m0 (by simp)]
    simp only [Bool.false_eq_true, if_false]
    exact ih (fun mm hm => h mm (by simp [hm]))

/-- C7: GetActiveMonitor over a monitor list with exactly one focused
entry returns that monitor; over a list with no focused entry it returns
the distinct "no focused monitor found" error, which is a different value
from the connection-failure error of sendCommand. -/
theorem getActiveMonitor_spec (ms : List HyprlandMonitor) (m : HyprlandMonitor) :
    (ms.filter (fun mm => mm.Focused) = [m] →
      GetActiveMonitor (Except.ok ms) = Except.ok m)
    ∧ ((∀ mm ∈ ms, mm.Focused = false) →
        GetActiveMonitor (Except.ok ms) = Except.error noFocusedMonitorMsg)
    ∧ noFocusedMonitorMsg ≠ connectFailureMsg := by
  refine ⟨?_, ?_, by decide⟩
  · intro h
    show (match findFocused ms with
          | some mm => Except.ok mm
          | none => Except.error noFocusedMonitorMsg) = Except.ok m
    rw [findFocused_of_filter ms m h]
  · intro h
    show (match findFocused ms with
          | some mm => Except.ok mm
          | none => Except.error noFocusedMonitorMsg) = Except.error noFocusedMonitorMsg
    rw [findFocused_none ms h]

/-- Witness for C7 on a concrete two-monitor and zero-focused list. -/
theorem getActiveMonitor_spec_witness :
    GetActiveMonitor (Except.ok [monOther, monFocused]) = Except.ok monFocused
    ∧ GetActiveMonitor (Except.ok [monOther]) = Except.error noFocusedMonitorMsg :=
  ⟨(getActiveMonitor_spec [monOther, monFocused] monFocused).1 (by decide),
   (getActiveMonitor_spec [monOther] monFocused).2.1 (by decide)⟩

/-! ## Claim theorems about client construction -/

/-- C8: NewHyprlandClient fails exactly when the session signature from
the environment variable HYPRLAND_INSTANCE_SIGNATURE is empty or unset
(os.Getenv yields "" for unset); otherwise it returns a client carrying
that signature and an empty listener registry. -/
theorem newHyprlandClient_spec (getenv : String → String) :
    ((∃ e, NewHyprlandClient getenv = Except.error e) ↔ getenv signatureEnvVar = "")
    ∧ (getenv signatureEnvVar ≠ "" →
        NewHyprlandClient getenv
          = Except.ok { signature := getenv signatureEnvVar, listeners := [] }) := by
  constructor
  · constructor
    · rintro ⟨e, he⟩
      by_contra hne
      unfold NewHyprlandClient at he
      rw [if_neg hne] at he
      exact absurd he (by simp)
    · intro h
      refine ⟨notRunningMsg, ?_⟩
      unfold NewHyprlandClient
      rw [if_pos h]
  · intro h
    unfold NewHyprlandClient
    rw [if_neg h]

/-- Witness for C8 with a present and an absent signature. -/
theorem newHyprlandClient_spec_witness :
    NewHyprlandClient (fun _ => "abc123")
      = Except.ok { signature := "abc123", listeners := [] }
    ∧ ((∃ e, NewHyprlandClient (fun _ => "") = Except.error e) ↔
        (fun _ : String => "") signatureEnvVar = "") :=
  ⟨(newHyprlandClient_spec (fun _ => "abc123")).2 (by decide),
   (newHyprlandClient_spec (fun _ => "")).1⟩

/-! ## Claim theorems about the typed dispatcher -/

/-- C6: the callback registered through OnWorkspaceChange is invoked for
every dispatched event of type "workspace" with a non-empty field list:
with the first field parsed as the integer workspace id when it is
numeric (so the parsed line "workspace>>3" invokes it with id 3), and
still invoked with the raw first field as the name when it is not
numeric. -/
theorem onWorkspaceChange_spec (ev : HyprlandEvent) (d0 : String) (rest : List String) :
    (ev.type = "workspace" → ev.data = d0 :: rest →
      onWorkspaceChangeArgs ev =
        some ((match goAtoi d0 with | some id => id | none => 0), d0))
    ∧ parseEvent "workspace>>3" = some { type := "workspace", data := ["3"] }
    ∧ onWorkspaceChangeArgs { type := "workspace", data := ["3"] } = some (3, "3") := by
  refine ⟨?_, by decide, by decide⟩
  intro hty hdata
  have hw : workspaceHandlerArgs ev =
      (match goAtoi d0 with
       | some id => some (id, d0)
       | none => some (0, d0)) := by
    unfold workspaceHandlerArgs
    rw [hdata]
  unfold onWorkspaceChangeArgs
  rw [if_pos hty, hw]
  cases goAtoi d0 <;> rfl

/-- Witness for C6 on a concrete numeric workspace event. -/
theorem onWorkspaceChange_spec_witness :
    onWorkspaceChangeArgs { type := "workspace", data := ["42", "x"] } =
      some ((match goAtoi "42" with | some id => id | none => 0), "42") :=
  (onWorkspaceChange_spec { type := "workspace", data := ["42", "x"] } "42" ["x"]).1 rfl rfl

/-- C10: whenever a "workspace" event's first field is not parseable as an
integer, the registered callback is invoked with workspace id 0 and the
raw field as the name, so at the callback interface a non-numeric
workspace name yields the same id a literal id-0 event yields. -/
theorem workspace_nonnumeric_zero_spec (ev : HyprlandEvent) (d0 : String) (rest : List String) :
    (ev.type = "workspace" → ev.data = d0 :: rest → goAtoi d0 = none →
      onWorkspaceChangeArgs ev = some (0, d0))
    ∧ onWorkspaceChangeArgs { type := "workspace", data := ["special"] } = some (0, "special")
    ∧ onWorkspaceChangeArgs { type := "workspace", data := ["0"] } = some (0, "0") := by
  refine ⟨?_, by decide, by decide⟩
  intro hty hdata hna
  have hw : workspaceHandlerArgs ev = some (0, d0) := by
    unfold workspaceHandlerArgs
    rw [hdata]
    show (match goAtoi d0 with
          | some id => some (id, d0)
          | none => some (0, d0)) = some (0, d0)
    rw [hna]
  unfold onWorkspaceChangeArgs
  rw [if_pos hty, hw]

/-- Witness for C10 on a concrete non-numeric workspace name. -/
theorem workspace_nonnumeric_zero_spec_witness :
    onWorkspaceChangeArgs { type := "workspace", data := ["name"] } = some (0, "name") :=
  (workspace_nonnumeric_zero_spec { type := "workspace", data := ["name"] } "name" []).1
    rfl rfl (by decide)

end Hypr
